import Mathlib

set_option maxRecDepth 100000

/-!
Shallow embedding of `docformatter.py` (version 0.1.7).

Python strings are modelled as lists of characters (`PyStr`); Python's
`tokenize` module is an external collaborator of the program, so the token
stream is modelled as explicit input data (a `List Token`), following the
lexer contract of the specification.  Fallible code (the `assert` in
`strip_docstring`, and list indexing that can raise `IndexError`) is
modelled with `Option`.
-/

/-- Python strings, modelled as lists of characters. -/
abbrev PyStr := List Char

/-- Character-list form of a Lean string literal. -/
def pys (s : String) : PyStr := s.data

/-- Python whitespace test (the ASCII whitespace characters recognised by
`str.strip` and by the regex class used in `docformatter.py`). -/
def isPySpace (c : Char) : Bool :=
  c == ' ' || c == '\t' || c == '\n' || c == '\r' || c == '\x0b' || c == '\x0c'

/-- Python `str.isalnum` for a single character (ASCII letters and digits;
the sources of this repository only feed it ASCII text). -/
def isPyAlnum (c : Char) : Bool :=
  c.isAlpha || c.isDigit

/-- Python `str.lstrip()` (no argument: strip leading whitespace). -/
def lstrip (s : PyStr) : PyStr := s.dropWhile isPySpace

/-- Python `str.rstrip()` (no argument: strip trailing whitespace). -/
def rstrip (s : PyStr) : PyStr := (s.reverse.dropWhile isPySpace).reverse

/-- Python `str.strip()` (strip whitespace at both ends). -/
def strip (s : PyStr) : PyStr := rstrip (lstrip s)

/-- Python `str.rstrip(cs)`: strip trailing characters drawn from `cs`. -/
def rstripSet (cs : PyStr) (s : PyStr) : PyStr :=
  (s.reverse.dropWhile (fun c => cs.contains c)).reverse

/-- Python `str.startswith p`. -/
def startsWithS (p s : PyStr) : Bool := List.isPrefixOf p s

/-- Python `str.endswith p`. -/
def endsWithS (p s : PyStr) : Bool := List.isSuffixOf p s

/-- The triple double quote delimiter. -/
def q3d : PyStr := pys "\"\"\""

/-- The triple single quote delimiter. -/
def q3s : PyStr := pys "'''"

/-- Line-boundary characters of Python `str.splitlines`. -/
def isLineBoundary (c : Char) : Bool :=
  c == '\n' || c == '\r' || c == '\x0b' || c == '\x0c' || c == '\x1c' ||
  c == '\x1d' || c == '\x1e' || c == '\x85' || c == '\u2028' || c == '\u2029'

/-- Worker for `splitlines`; `acc` is the current (reversed) line. -/
def splitlinesGo (acc : PyStr) : PyStr → List PyStr
  | [] => [acc.reverse]
  | '\r' :: '\n' :: rest =>
    acc.reverse :: (if rest.isEmpty then [] else splitlinesGo [] rest)
  | c :: rest =>
    if isLineBoundary c then
      acc.reverse :: (if rest.isEmpty then [] else splitlinesGo [] rest)
    else
      splitlinesGo (c :: acc) rest

/-- Python `str.splitlines()` (line boundaries removed; a trailing boundary
produces no extra empty line; the empty string gives no lines). -/
def splitlines : PyStr → List PyStr
  | [] => []
  | c :: rest => splitlinesGo [] (c :: rest)

/-- `re.split("\\.\\s", s, maxsplit=1)` when it does split: the text before
the first period-then-whitespace occurrence and the text after it (the
matched two characters are consumed); `none` when there is no occurrence. -/
def splitPeriodSpace : PyStr → Option (PyStr × PyStr)
  | [] => none
  | [_] => none
  | c :: d :: rest =>
    if c == '.' && isPySpace d then some ([], rest)
    else (splitPeriodSpace (d :: rest)).map (fun p => (c :: p.1, p.2))

/-- Whether the text contains a period immediately followed by whitespace
(the trigger of the period-split rule). -/
def containsPeriodSpace : PyStr → Bool
  | [] => false
  | [_] => false
  | c :: d :: rest => (c == '.' && isPySpace d) || containsPeriodSpace (d :: rest)

/-- Whether the text contains the triple double quote substring
(`contents.count('\"\"\"')` used as a truth value). -/
def containsTDQ : PyStr → Bool
  | '"' :: '"' :: '"' :: _ => true
  | _ :: rest => containsTDQ rest
  | [] => false

/-- Python `s.split(pat, 1)` when `pat` occurs in `s`: the parts before and
after the first occurrence; `none` when `pat` does not occur (so that
indexing `[1]` into the split, as `strip_docstring` does, is a failure). -/
def splitOnce (pat : PyStr) : PyStr → Option (PyStr × PyStr)
  | [] => if List.isPrefixOf pat [] then some ([], ([] : PyStr).drop pat.length) else none
  | c :: rest =>
    if List.isPrefixOf pat (c :: rest) then some ([], (c :: rest).drop pat.length)
    else (splitOnce pat rest).map (fun p => (c :: p.1, p.2))

/-- Python `s.rsplit(pat, 1)` when `pat` occurs in `s`: the parts before and
after the last occurrence. -/
def rsplitOnce (pat : PyStr) (s : PyStr) : Option (PyStr × PyStr) :=
  (splitOnce pat.reverse s.reverse).map (fun p => (p.2.reverse, p.1.reverse))

/-- Python `s.rsplit(pat, 1)[0]`: total, because `rsplit` returns the whole
string as sole element when the separator is absent. -/
def pyRsplitHead (pat : PyStr) (s : PyStr) : PyStr :=
  match rsplitOnce pat s with
  | some p => p.1
  | none => s

/-- Worker for `collapseRuns`: `run` holds the current (reversed) whitespace
run, `sawNl` records whether that run contains a newline. -/
def collapseGo (run : PyStr) (sawNl : Bool) : PyStr → PyStr
  | [] => if run.isEmpty then [] else if sawNl then [' '] else run.reverse
  | c :: rest =>
    if isPySpace c then collapseGo (c :: run) (sawNl || c == '\n') rest
    else
      (if run.isEmpty then [] else if sawNl then [' '] else run.reverse) ++
        (c :: collapseGo [] false rest)

/-- `re.sub("\\s*\\n\\s*", " ", s)`: every maximal whitespace run that
contains a newline is replaced by a single space; other characters and
newline-free whitespace runs are kept. -/
def collapseRuns (s : PyStr) : PyStr := collapseGo [] false s

/-- Worker for `pyWords`: `cur` is the current (reversed) word. -/
def pyWordsGo (cur : PyStr) : PyStr → List PyStr
  | [] => if cur.isEmpty then [] else [cur.reverse]
  | c :: rest =>
    if isPySpace c then
      (if cur.isEmpty then pyWordsGo [] rest else cur.reverse :: pyWordsGo [] rest)
    else pyWordsGo (c :: cur) rest

/-- Whitespace-separated words of a string (Python `str.split()`). -/
def pyWords (s : PyStr) : List PyStr := pyWordsGo [] s

/-- Greedy line packing for `textwrap_wrap`. -/
def wrapGreedy (width : Nat) (cur : PyStr) : List PyStr → List PyStr
  | [] => [cur]
  | w :: rest =>
    if cur.length + 1 + w.length ≤ width then wrapGreedy width (cur ++ ' ' :: w) rest
    else cur :: wrapGreedy width w rest

/-- Modelled from the spec: Python's `textwrap.wrap`, an external library
function not part of this repository's sources.  Per the specification it
performs greedy word-wrapping at the given column width; leading whitespace
of the input (the three-column compensation for the opening triple quote)
stays on the first line, and an all-whitespace input produces no lines. -/
def textwrap_wrap (s : PyStr) (width : Nat) : List PyStr :=
  match pyWords s with
  | [] => []
  | w :: ws => wrapGreedy width (s.takeWhile isPySpace ++ w) ws

/-- `starts_with_triple` from `docformatter.py`: the stripped text starts
with triple double or triple single quotes. -/
def starts_with_triple (s : PyStr) : Bool :=
  startsWithS q3d (strip s) || startsWithS q3s (strip s)

/-- `strip_docstring` from `docformatter.py`: the stripped contents between
the first and last occurrence of the docstring's delimiter.  The `assert`
on a non-closing `'''` docstring and the `IndexError` on a text containing
no delimiter at all are modelled as `none`. -/
def strip_docstring (docstring : PyStr) : Option PyStr :=
  if startsWithS q3s (lstrip docstring) then
    if endsWithS q3s (rstrip docstring) then
      (splitOnce q3s docstring).map (fun p => strip (pyRsplitHead q3s p.2))
    else none
  else
    (splitOnce q3d docstring).map (fun p => strip (pyRsplitHead q3d p.2))

/-- The period-split branch of `split_summary_and_description`. -/
def periodBranch (contents : PyStr) : PyStr × PyStr :=
  match splitPeriodSpace contents with
  | some p => (strip p.1 ++ ['.'], strip p.2)
  | none => (strip contents, [])

/-- `split_summary_and_description` from `docformatter.py`. -/
def split_summary_and_description (contents : PyStr) : PyStr × PyStr :=
  match splitlines contents with
  | l0 :: l1 :: rest =>
    if strip l1 = [] then (l0, List.intercalate (pys "\n") rest)
    else periodBranch contents
  | _ => periodBranch contents

/-- `indent_non_indented` from `docformatter.py`. -/
def indent_non_indented (line indentation : PyStr) : PyStr :=
  if lstrip line = line then indentation ++ line else line

/-- `normalize_summary` from `docformatter.py`. -/
def normalize_summary (summary : PyStr) (wrap_length : Nat) : PyStr :=
  let s1 := collapseRuns (strip summary)
  let s2 :=
    match s1.getLast? with
    | some c => if isPyAlnum c then s1 ++ ['.'] else s1
    | none => s1
  if wrap_length > 0 then
    strip (List.intercalate (pys "\n") (textwrap_wrap (List.replicate 3 ' ' ++ s2) wrap_length))
  else s2

/-- `format_docstring` from `docformatter.py`.  The result is `none` exactly
when `strip_docstring` fails (its assertion error propagates). -/
def format_docstring (indentation docstring : PyStr) (summary_wrap_length : Nat) :
    Option PyStr :=
  match strip_docstring docstring with
  | none => none
  | some contents =>
    if containsTDQ contents then some docstring
    else
      let sd := split_summary_and_description contents
      if sd.2 ≠ [] then
        some (q3d ++ normalize_summary sd.1 summary_wrap_length ++ pys "\n\n" ++
          List.intercalate (pys "\n")
            ((splitlines sd.2).map (fun l => rstrip (indent_non_indented l indentation))) ++
          pys "\n\n" ++ indentation ++ q3d)
      else some (q3d ++ normalize_summary contents summary_wrap_length ++ q3d)

/-- Modelled from the spec: the token kinds of the external lexer that the
reconstruction loop distinguishes (`STRING`, `INDENT`) together with the
other kinds Python's `tokenize` produces for the concrete sources used
below; `format_code` treats all kinds other than `STRING` and `INDENT`
uniformly. -/
inductive TokKind
  | STRING
  | INDENT
  | DEDENT
  | NEWLINE
  | NL
  | NAME
  | OP
  | NUMBER
  | COMMENT
  | ENDMARKER
deriving DecidableEq

/-- Modelled from the spec: a token of the external lexer, carrying its
kind, literal text, start and end position (1-based row, 0-based column)
and the full source line it belongs to. -/
structure Token where
  kind : TokKind
  text : PyStr
  startRow : Nat
  startCol : Nat
  endRow : Nat
  endCol : Nat
  line : PyStr
deriving DecidableEq

/-- The loop-carried state of `format_code`: the output accumulated so far
and the tracking variables of the source loop
(`formatted`, `previous_token_string`, `previous_token_type`,
`previous_line`, `last_row`, `last_column`). -/
structure FCState where
  formatted : PyStr
  prevTokenString : PyStr
  prevTokenType : Option TokKind
  previousLine : PyStr
  lastRow : Nat
  lastCol : Int
deriving DecidableEq

/-- The initial state of the `format_code` loop. -/
def initState : FCState :=
  { formatted := [], prevTokenString := [], prevTokenType := none,
    previousLine := [], lastRow := 0, lastCol := -1 }

/-- Whether a line ends in a line-continuation marker
(`endswith('\\\n') or endswith('\\\r\n') or endswith('\\\r')`). -/
def endsWithContinuation (l : PyStr) : Bool :=
  endsWithS (pys "\\\n") l || endsWithS (pys "\\\r\n") l || endsWithS (pys "\\\r") l

/-- The character set of `previous_line.rstrip(' \t\n\r\\')`. -/
def contChars : PyStr := pys " \t\n\r\\"

/-- The continuation tail of a line:
`previous_line[len(previous_line.rstrip(' \t\n\r\\')):]`. -/
def contTail (l : PyStr) : PyStr := l.drop (rstripSet contChars l).length

/-- The escaped-newline text `format_code` prepends before a token: the
continuation tail of the previous line when the token starts on a new row
and the previous line ended in a continuation marker. -/
def fcPre1 (st : FCState) (t : Token) : PyStr :=
  if decide (st.lastRow < t.startRow) && endsWithContinuation st.previousLine then
    contTail st.previousLine
  else []

/-- The column baseline used for spacing: reset to `0` on a new row. -/
def fcLastCol (st : FCState) (t : Token) : Int :=
  if st.lastRow < t.startRow then 0 else st.lastCol

/-- The spacing `format_code` inserts before a token:
`' ' * (start_column - last_column)` when the start column exceeds the
baseline. -/
def fcPre2 (st : FCState) (t : Token) : PyStr :=
  if fcLastCol st t < (t.startCol : Int) then
    List.replicate ((t.startCol : Int) - fcLastCol st t).toNat ' '
  else []

/-- The docstring-detection condition of `format_code`: a `STRING` token
whose text starts (after stripping) with a triple quote, immediately
preceded by an `INDENT` token. -/
def isDocTrigger (prev : Option TokKind) (t : Token) : Bool :=
  (t.kind == TokKind.STRING) && starts_with_triple t.text &&
    (prev == some TokKind.INDENT)

/-- The state after one iteration of the `format_code` loop, emitting
`piece` for the current token. -/
def fcNext (st : FCState) (t : Token) (piece : PyStr) : FCState :=
  { formatted := st.formatted ++ fcPre1 st t ++ fcPre2 st t ++ piece,
    prevTokenString := t.text,
    prevTokenType := some t.kind,
    previousLine := t.line,
    lastRow := t.endRow,
    lastCol := (t.endCol : Int) }

/-- One iteration of the `format_code` loop. -/
def fcStep (w : Nat) (st : FCState) (t : Token) : Option FCState :=
  if isDocTrigger st.prevTokenType t then
    (format_docstring st.prevTokenString t.text w).map (fcNext st t)
  else some (fcNext st t t.text)

/-- The `format_code` loop over the token stream. -/
def fcRun (w : Nat) : FCState → List Token → Option FCState
  | st, [] => some st
  | st, t :: rest => (fcStep w st t).bind (fun st2 => fcRun w st2 rest)

/-- `format_code` from `docformatter.py`, over the token stream produced by
the external lexer for the source text. -/
def format_code (toks : List Token) (summary_wrap_length : Nat) : Option PyStr :=
  (fcRun summary_wrap_length initState toks).map FCState.formatted

/-- No token of the stream satisfies the docstring-detection condition,
given the kind of the token preceding the stream (`none` at the start). -/
def noTrig (prev : Option TokKind) : List Token → Bool
  | [] => true
  | t :: rest => !(isDocTrigger prev t) && noTrig (some t.kind) rest

/-- Worker for `pyLines`: physical lines of a source text, line feeds kept. -/
def pyLinesGo (acc : PyStr) : PyStr → List PyStr
  | [] => if acc.isEmpty then [] else [acc.reverse]
  | '\n' :: rest => ('\n' :: acc).reverse :: pyLinesGo [] rest
  | c :: rest => pyLinesGo (c :: acc) rest

/-- The physical lines of a source text as the lexer reads them: split
after each `'\n'`, keeping the line feed (the concrete sources below use
LF line endings). -/
def pyLines (s : PyStr) : List PyStr := pyLinesGo [] s

/-- The flat index of the start of (1-based) physical row `r`. -/
def lineStart (s : PyStr) (r : Nat) : Nat :=
  (((pyLines s).take (r - 1)).map List.length).sum

/-- The flat index of position (row `r`, column `c`) in source `s`. -/
def flat (s : PyStr) (r c : Nat) : Nat := lineStart s r + c

/-- The `n` characters of `s` starting at flat index `i`. -/
def pySlice (s : PyStr) (i n : Nat) : PyStr := (s.drop i).take n

/-- The source text of physical rows `r1` through `r2` (the `line` field of
a token spanning those rows). -/
def lineSpan (s : PyStr) (r1 r2 : Nat) : PyStr :=
  (((pyLines s).drop (r1 - 1)).take (r2 - r1 + 1)).flatten

/-- Modelled from the spec: the lexer contract for a successfully tokenized
source.  From flat position `i`, each token occupies the span given by its
start and end coordinates, its literal text is exactly the source text of
that span, its `line` field is the source text of its rows, spans are
non-overlapping and in source order, the text between consecutive spans is
whitespace, and the final token ends at the end of the source. -/
def faithfulFrom (s : PyStr) (i : Nat) : List Token → Bool
  | [] => decide (i = s.length)
  | t :: rest =>
    let j := flat s t.startRow t.startCol
    let k := flat s t.endRow t.endCol
    decide (i ≤ j) && decide (j ≤ k) && decide (k ≤ s.length) &&
    (pySlice s i (j - i)).all isPySpace &&
    decide (pySlice s j (k - j) = t.text) &&
    decide (t.line = lineSpan s t.startRow t.endRow) &&
    faithfulFrom s k rest

/-- Modelled from the spec: `toks` is a faithful tokenization of `s`. -/
def FaithfulStream (s : PyStr) (toks : List Token) : Bool :=
  faithfulFrom s 0 toks

/-- A lossless stream: a faithful tokenization whose inter-token gaps are
exactly the spacing `format_code` regenerates — on the same row the gap is
`startCol - lastCol` space characters, on a new row the gap is `startCol`
space characters — whose end coordinates are consistent with the token
text length, and whose lines carry no continuation markers. -/
def exactFrom (s : PyStr) (lastRow : Nat) (lastCol : Int) (i : Nat) :
    List Token → Bool
  | [] => decide (i = s.length)
  | t :: rest =>
    let j := flat s t.startRow t.startCol
    let k := flat s t.endRow t.endCol
    (if lastRow < t.startRow then
      decide (j = i + t.startCol) && (pySlice s i t.startCol).all (fun c => c == ' ')
     else
      decide (t.startRow = lastRow) && decide (lastCol ≤ (t.startCol : Int)) &&
      decide (j = i + ((t.startCol : Int) - lastCol).toNat) &&
      (pySlice s i (j - i)).all (fun c => c == ' ')) &&
    decide (k = j + t.text.length) && decide (k ≤ s.length) &&
    decide (pySlice s j (k - j) = t.text) &&
    !(endsWithContinuation t.line) &&
    exactFrom s t.endRow (t.endCol : Int) k rest

/-- A lossless stream for the whole source, from the initial loop state. -/
def ExactStream (s : PyStr) (toks : List Token) : Bool :=
  exactFrom s 0 (-1) 0 toks

/-- Source text with a tab between tokens, for the preservation claim. -/
def tabSrc : PyStr := pys "x\t= 1\n"

/-- Modelled from the spec: the external lexer's token stream for `tabSrc`
(`x`, `=`, `1`, a newline and the end marker; the tab is an inter-token
gap). -/
def tabToks : List Token :=
  [ ⟨TokKind.NAME, pys "x", 1, 0, 1, 1, pys "x\t= 1\n"⟩,
    ⟨TokKind.OP, pys "=", 1, 2, 1, 3, pys "x\t= 1\n"⟩,
    ⟨TokKind.NUMBER, pys "1", 1, 4, 1, 5, pys "x\t= 1\n"⟩,
    ⟨TokKind.NEWLINE, pys "\n", 1, 5, 1, 6, pys "x\t= 1\n"⟩,
    ⟨TokKind.ENDMARKER, pys "", 2, 0, 2, 0, pys ""⟩ ]

/-- Source text with single-space gaps, for the preservation witness. -/
def spaceSrc : PyStr := pys "x = 1\n"

/-- Modelled from the spec: the external lexer's token stream for
`spaceSrc`. -/
def spaceToks : List Token :=
  [ ⟨TokKind.NAME, pys "x", 1, 0, 1, 1, pys "x = 1\n"⟩,
    ⟨TokKind.OP, pys "=", 1, 2, 1, 3, pys "x = 1\n"⟩,
    ⟨TokKind.NUMBER, pys "1", 1, 4, 1, 5, pys "x = 1\n"⟩,
    ⟨TokKind.NEWLINE, pys "\n", 1, 5, 1, 6, pys "x = 1\n"⟩,
    ⟨TokKind.ENDMARKER, pys "", 2, 0, 2, 0, pys ""⟩ ]

/-- The scenario source text
`def f():\n    '''return x'''\n    pass`. -/
def scenarioSrc : PyStr := pys "def f():\n    '''return x'''\n    pass"

/-- Modelled from the spec: the external lexer's token stream for
`scenarioSrc` (the docstring token follows the `INDENT` token of the
function body; the synthesized final newline, dedent and end marker carry
empty text). -/
def scenarioToks : List Token :=
  [ ⟨TokKind.NAME, pys "def", 1, 0, 1, 3, pys "def f():\n"⟩,
    ⟨TokKind.NAME, pys "f", 1, 4, 1, 5, pys "def f():\n"⟩,
    ⟨TokKind.OP, pys "(", 1, 5, 1, 6, pys "def f():\n"⟩,
    ⟨TokKind.OP, pys ")", 1, 6, 1, 7, pys "def f():\n"⟩,
    ⟨TokKind.OP, pys ":", 1, 7, 1, 8, pys "def f():\n"⟩,
    ⟨TokKind.NEWLINE, pys "\n", 1, 8, 1, 9, pys "def f():\n"⟩,
    ⟨TokKind.INDENT, pys "    ", 2, 0, 2, 4, pys "    '''return x'''\n"⟩,
    ⟨TokKind.STRING, pys "'''return x'''", 2, 4, 2, 18, pys "    '''return x'''\n"⟩,
    ⟨TokKind.NEWLINE, pys "\n", 2, 18, 2, 19, pys "    '''return x'''\n"⟩,
    ⟨TokKind.NAME, pys "pass", 3, 4, 3, 8, pys "    pass"⟩,
    ⟨TokKind.NEWLINE, pys "", 3, 8, 3, 9, pys ""⟩,
    ⟨TokKind.DEDENT, pys "", 4, 0, 4, 0, pys ""⟩,
    ⟨TokKind.ENDMARKER, pys "", 4, 0, 4, 0, pys ""⟩ ]

/-! Helper lemmas about the string primitives. -/

theorem q3s_eq : q3s = '\'' :: '\'' :: '\'' :: [] := rfl

theorem q3d_eq : q3d = '"' :: '"' :: '"' :: [] := rfl

theorem q3s_reverse : q3s.reverse = q3s := rfl

theorem length_dropWhile_le' (p : Char → Bool) (l : PyStr) :
    (l.dropWhile p).length ≤ l.length :=
  (List.dropWhile_suffix p).sublist.length_le

theorem length_rstrip_le (s : PyStr) : (rstrip s).length ≤ s.length := by
  unfold rstrip
  rw [List.length_reverse]
  calc (s.reverse.dropWhile isPySpace).length ≤ s.reverse.length :=
        length_dropWhile_le' _ _
    _ = s.length := List.length_reverse s

theorem strip_head_not_space (c : Char) (t : PyStr) (h : strip (c :: t) = c :: t) :
    isPySpace c = false := by
  by_cases hc : isPySpace c = true
  · exfalso
    have hl : (strip (c :: t)).length ≤ t.length := by
      unfold strip lstrip
      rw [List.dropWhile_cons, if_pos hc]
      exact le_trans (length_rstrip_le _) (length_dropWhile_le' _ _)
    rw [h] at hl
    simp at hl
  · simpa using hc

theorem lstrip_cons_of_not_space (c : Char) (t : PyStr) (hc : isPySpace c = false) :
    lstrip (c :: t) = c :: t := by
  unfold lstrip
  rw [List.dropWhile_cons, if_neg (by simp [hc])]

theorem dropWhile_space_append (ws X : PyStr) (hws : ∀ c ∈ ws, isPySpace c = true) :
    (ws ++ X).dropWhile isPySpace = X.dropWhile isPySpace := by
  induction ws with
  | nil => rfl
  | cons c w ih =>
    rw [List.cons_append, List.dropWhile_cons, if_pos (hws c (by simp))]
    exact ih (fun d hd => hws d (by simp [hd]))

theorem dropWhile_space_q3s_append (X : PyStr) :
    (q3s ++ X).dropWhile isPySpace = q3s ++ X := by
  rw [q3s_eq]
  simp only [List.cons_append, List.nil_append]
  rw [List.dropWhile_cons, if_neg (by decide)]

theorem dropWhile_append_singleton (p : Char → Bool) (l : PyStr) (c : Char)
    (hc : p c = false) :
    (l ++ [c]).dropWhile p = l.dropWhile p ++ [c] := by
  induction l with
  | nil => simp [List.dropWhile, hc]
  | cons a t ih =>
    by_cases ha : p a = true
    · rw [List.cons_append, List.dropWhile_cons, if_pos ha, List.dropWhile_cons, if_pos ha]
      exact ih
    · rw [List.cons_append, List.dropWhile_cons, if_neg (by simp [ha]),
        List.dropWhile_cons, if_neg (by simp [ha]), List.cons_append]

theorem rstrip_cons_of_not_space (c : Char) (t : PyStr) (hc : isPySpace c = false) :
    rstrip (c :: t) = c :: (t.reverse.dropWhile isPySpace).reverse := by
  unfold rstrip
  rw [List.reverse_cons, dropWhile_append_singleton _ _ _ hc]
  simp

theorem rstripSet_append_drop (cs l : PyStr) :
    rstripSet cs l ++ l.drop (rstripSet cs l).length = l := by
  have h : rstripSet cs l ++ (l.reverse.takeWhile (fun c => cs.contains c)).reverse = l := by
    unfold rstripSet
    rw [← List.reverse_append, List.takeWhile_append_dropWhile, List.reverse_reverse]
  set A := rstripSet cs l with hA
  set T := (l.reverse.takeWhile (fun c => cs.contains c)).reverse with hT
  rw [← h, List.drop_left]

theorem isPrefixOf_append_self (p t : PyStr) : List.isPrefixOf p (p ++ t) = true :=
  List.isPrefixOf_iff_prefix.mpr (List.prefix_append p t)

theorem splitOnce_self_append (p t : PyStr) : splitOnce p (p ++ t) = some ([], t) := by
  rcases hp : p ++ t with _ | ⟨c, r⟩
  · have hp0 : p = [] := by cases p <;> simp_all
    have ht0 : t = [] := by subst hp0; simpa using hp
    subst hp0; subst ht0
    simp [splitOnce]
  · simp only [splitOnce]
    rw [← hp, if_pos (isPrefixOf_append_self p t), List.drop_left]

theorem splitOnce_cons_nonmatch (p : PyStr) (c : Char) (r : PyStr)
    (h : List.isPrefixOf p (c :: r) = false) :
    splitOnce p (c :: r) = (splitOnce p r).map (fun q => (c :: q.1, q.2)) := by
  simp only [splitOnce]
  rw [if_neg (by simp [h])]

theorem q3s_not_prefix_cons (c : Char) (r : PyStr) (h : c ≠ '\'') :
    List.isPrefixOf q3s (c :: r) = false := by
  rw [q3s_eq]
  show (('\'' == c) && List.isPrefixOf ('\'' :: '\'' :: []) r) = false
  have : ('\'' == c) = false := beq_eq_false_iff_ne.mpr (fun hc => h hc.symm)
  rw [this, Bool.false_and]

theorem space_ne_quote (c : Char) (hc : isPySpace c = true) : c ≠ '\'' := by
  intro h
  rw [h] at hc
  exact absurd hc (by decide)

theorem splitOnce_q3s_ws_append (ws rest : PyStr)
    (hws : ∀ c ∈ ws, isPySpace c = true) :
    splitOnce q3s (ws ++ (q3s ++ rest)) = some (ws, rest) := by
  induction ws with
  | nil => simpa using splitOnce_self_append q3s rest
  | cons c w ih =>
    have hc : isPySpace c = true := hws c (by simp)
    rw [List.cons_append,
      splitOnce_cons_nonmatch _ _ _ (q3s_not_prefix_cons c _ (space_ne_quote c hc)),
      ih (fun d hd => hws d (by simp [hd]))]
    rfl

theorem rsplitOnce_append_q3s_ws (mid ws : PyStr)
    (hws : ∀ c ∈ ws, isPySpace c = true) :
    rsplitOnce q3s (mid ++ (q3s ++ ws)) = some (mid, ws) := by
  unfold rsplitOnce
  have hrev : (mid ++ (q3s ++ ws)).reverse = ws.reverse ++ (q3s ++ mid.reverse) := by
    rw [List.reverse_append, List.reverse_append, q3s_reverse, List.append_assoc]
  rw [hrev, q3s_reverse,
    splitOnce_q3s_ws_append ws.reverse mid.reverse
      (fun d hd => hws d (List.mem_reverse.mp hd))]
  simp

/-! Helper lemmas for the collapse of newline-spanning whitespace runs. -/

theorem emit_no_nl (run : PyStr) (b : Bool) (hb : '\n' ∈ run → b = true) :
    '\n' ∉ (if run.isEmpty then ([] : PyStr) else if b then [' '] else run.reverse) := by
  by_cases hr : run.isEmpty
  · simp [hr]
  · rw [if_neg hr]
    by_cases hbv : b
    · simp [hbv]
    · rw [if_neg hbv]
      intro hmem
      exact hbv (hb (List.mem_reverse.mp hmem))

theorem collapseGo_no_nl :
    ∀ (l run : PyStr) (b : Bool), ('\n' ∈ run → b = true) → '\n' ∉ collapseGo run b l := by
  intro l
  induction l with
  | nil =>
    intro run b hb
    exact emit_no_nl run b hb
  | cons c rest ih =>
    intro run b hb
    unfold collapseGo
    by_cases hc : isPySpace c = true
    · rw [if_pos hc]
      refine ih (c :: run) (b || (c == '\n')) ?_
      intro hmem
      rcases List.mem_cons.mp hmem with h | h
      · rw [← h]; simp
      · rw [hb h]; simp
    · rw [if_neg (by simp [hc])]
      intro hmem
      rcases List.mem_append.mp hmem with h | h
      · exact emit_no_nl run b hb h
      · rcases List.mem_cons.mp h with h2 | h2
        · rw [← h2] at hc
          exact hc (by decide)
        · exact ih [] false (by intro h3; simp at h3) h2

theorem normalize_summary_zero_no_nl (s : PyStr) : '\n' ∉ normalize_summary s 0 := by
  have base : '\n' ∉ collapseRuns (strip s) :=
    collapseGo_no_nl (strip s) [] false (by intro h; simp at h)
  simp only [normalize_summary]
  rw [if_neg (by omega : ¬ ((0 : Nat) > 0))]
  rcases (collapseRuns (strip s)).getLast? with _ | c
  · exact base
  · by_cases ha : isPyAlnum c = true
    · show '\n' ∉ (if isPyAlnum c = true then collapseRuns (strip s) ++ ['.']
        else collapseRuns (strip s))
      rw [if_pos ha]
      intro hmem
      rcases List.mem_append.mp hmem with h | h
      · exact base h
      · simp at h
    · show '\n' ∉ (if isPyAlnum c = true then collapseRuns (strip s) ++ ['.']
        else collapseRuns (strip s))
      rw [if_neg ha]
      exact base

/-! Helper lemmas for the summary/description splitter. -/

theorem splitPeriodSpace_isSome_eq (s : PyStr) :
    (splitPeriodSpace s).isSome = containsPeriodSpace s := by
  induction s with
  | nil => rfl
  | cons c t ih =>
    cases t with
    | nil => rfl
    | cons d r =>
      simp only [splitPeriodSpace, containsPeriodSpace]
      by_cases h : (c == '.' && isPySpace d) = true
      · rw [if_pos h, h, Bool.true_or]
        rfl
      · have h' : (c == '.' && isPySpace d) = false := by simpa using h
        rw [if_neg h, h', Bool.false_or]
        cases hsp : splitPeriodSpace (d :: r) with
        | none => rw [hsp] at ih; simpa using ih.symm
        | some p => rw [hsp] at ih; simpa using ih.symm

theorem splitPeriodSpace_decomp :
    ∀ (s a b : PyStr), splitPeriodSpace s = some (a, b) →
      ∃ c, isPySpace c = true ∧ s = a ++ '.' :: c :: b := by
  intro s
  induction s with
  | nil => intro a b h; simp [splitPeriodSpace] at h
  | cons c t ih =>
    intro a b h
    cases t with
    | nil => simp [splitPeriodSpace] at h
    | cons d r =>
      simp only [splitPeriodSpace] at h
      by_cases hcd : (c == '.' && isPySpace d) = true
      · rw [if_pos hcd] at h
        have hab := Option.some.inj h
        have ha : ([] : PyStr) = a := congrArg Prod.fst hab
        have hb : r = b := congrArg Prod.snd hab
        have hcd' : c = '.' ∧ isPySpace d = true := by simpa using hcd
        refine ⟨d, hcd'.2, ?_⟩
        rw [← ha, ← hb, List.nil_append, hcd'.1]
      · rw [if_neg hcd] at h
        rcases Option.map_eq_some'.mp h with ⟨⟨a', b'⟩, hsp, heq⟩
        have ha : c :: a' = a := congrArg Prod.fst heq
        have hb : b' = b := congrArg Prod.snd heq
        obtain ⟨c2, hc2, hdec⟩ := ih a' b' hsp
        refine ⟨c2, hc2, ?_⟩
        rw [← ha, ← hb, List.cons_append, ← hdec]

theorem strip_of_strip_eq (a : PyStr) (s : PyStr) (hs : strip s = s)
    (hpre : ∃ r, s = a ++ r) : strip a = rstrip a := by
  cases a with
  | nil => rfl
  | cons a0 t =>
    have h0 : isPySpace a0 = false := by
      obtain ⟨r, hr⟩ := hpre
      rw [hr] at hs
      exact strip_head_not_space a0 (t ++ r) (by simpa using hs)
    unfold strip
    rw [lstrip_cons_of_not_space a0 t h0]

/-! Claim theorems. -/

/-- Claim C3: a docstring literal whose stripped contents contain the
triple double quote substring is returned unchanged by `format_docstring`
(original quote character and internal formatting preserved). -/
theorem format_docstring_nested_quote_passthrough
    (indentation docstring : PyStr) (w : Nat) (contents : PyStr)
    (h1 : strip_docstring docstring = some contents)
    (h2 : containsTDQ contents = true) :
    format_docstring indentation docstring w = some docstring := by
  unfold format_docstring
  rw [h1]
  simp [h2]

/-- Witness for claim C3 at a concrete `'''`-quoted docstring containing
a nested triple double quote. -/
theorem format_docstring_nested_quote_passthrough_witness :
    format_docstring (pys "    ") (pys "'''a \"\"\" b'''") 0 =
      some (pys "'''a \"\"\" b'''") :=
  format_docstring_nested_quote_passthrough (pys "    ") (pys "'''a \"\"\" b'''") 0
    (pys "a \"\"\" b") (by decide) (by decide)

/-- Claim C8 counterexample: normalizing the summary
`"Return  x.\n   "` does not give `"Return x."` — the run of two spaces
contains no newline, so the code does not collapse it. -/
theorem normalize_summary_whitespace_counterexample :
    normalize_summary (pys "Return  x.\n   ") 0 ≠ pys "Return x." := by decide

/-- Claim C8 (amended): `normalize_summary` collapses exactly the
whitespace runs that span a newline and strips the ends, so
`"Return  x.\n   "` normalizes to `"Return  x."` (the trailing run is
stripped, the interior newline-free run is kept), a summary whose interior
run spans a newline is collapsed to a single space (with the sentence
period appended), and the result at wrap width 0 never contains a
newline. -/
theorem normalize_summary_whitespace_collapse :
    normalize_summary (pys "Return  x.\n   ") 0 = pys "Return  x." ∧
    normalize_summary (pys "Return \n   x") 0 = pys "Return x." ∧
    ∀ s : PyStr, '\n' ∉ normalize_summary s 0 :=
  ⟨by decide, by decide, normalize_summary_zero_no_nl⟩

/-- Witness for claim C8's universally quantified part at a concrete
summary. -/
theorem normalize_summary_whitespace_collapse_witness :
    '\n' ∉ normalize_summary (pys "a\n b\nc") 0 :=
  normalize_summary_whitespace_collapse.2.2 (pys "a\n b\nc")

/-- Claim C9: if a docstring literal opens (after left-stripping) with the
non-canonical `'''` delimiter but does not close (after right-stripping)
with `'''`, `strip_docstring` fails (the assertion raises) instead of
returning contents; and on a well-formed `'''` literal — whitespace, the
opening delimiter, the contents, the closing delimiter, whitespace — the
failure branch is unreachable and the stripped text between the first and
last delimiter occurrence is returned. -/
theorem strip_docstring_malformed_guard :
    (∀ ds : PyStr, startsWithS q3s (lstrip ds) = true →
        endsWithS q3s (rstrip ds) = false → strip_docstring ds = none) ∧
    (∀ ws1 mid ws2 : PyStr, (∀ c ∈ ws1, isPySpace c = true) →
        (∀ c ∈ ws2, isPySpace c = true) →
        strip_docstring (ws1 ++ (q3s ++ (mid ++ (q3s ++ ws2)))) =
          some (strip mid)) := by
  constructor
  · intro ds h1 h2
    unfold strip_docstring
    rw [if_pos h1, if_neg (by simp [h2])]
  · intro ws1 mid ws2 hws1 hws2
    have hl : lstrip (ws1 ++ (q3s ++ (mid ++ (q3s ++ ws2)))) =
        q3s ++ (mid ++ (q3s ++ ws2)) := by
      unfold lstrip
      rw [dropWhile_space_append ws1 _ hws1, dropWhile_space_q3s_append]
    have hstart : startsWithS q3s (lstrip (ws1 ++ (q3s ++ (mid ++ (q3s ++ ws2))))) = true := by
      rw [hl]
      exact isPrefixOf_append_self q3s _
    have hrev : (ws1 ++ (q3s ++ (mid ++ (q3s ++ ws2)))).reverse =
        ws2.reverse ++ (q3s ++ (mid.reverse ++ (q3s ++ ws1.reverse))) := by
      simp [List.reverse_append, q3s_reverse]
    have hre : rstrip (ws1 ++ (q3s ++ (mid ++ (q3s ++ ws2)))) =
        (q3s ++ (mid.reverse ++ (q3s ++ ws1.reverse))).reverse := by
      unfold rstrip
      rw [hrev, dropWhile_space_append _ _ (fun d hd => hws2 d (List.mem_reverse.mp hd)),
        dropWhile_space_q3s_append]
    have hend : endsWithS q3s (rstrip (ws1 ++ (q3s ++ (mid ++ (q3s ++ ws2))))) = true := by
      rw [hre]
      unfold endsWithS
      rw [List.reverse_append, q3s_reverse]
      exact List.isSuffixOf_iff_suffix.mpr (List.suffix_append _ _)
    unfold strip_docstring
    rw [if_pos hstart, if_pos hend,
      splitOnce_q3s_ws_append ws1 (mid ++ (q3s ++ ws2)) hws1, Option.map_some']
    have hhead : pyRsplitHead q3s (mid ++ (q3s ++ ws2)) = mid := by
      unfold pyRsplitHead
      rw [rsplitOnce_append_q3s_ws mid ws2 hws2]
    rw [hhead]

/-- Witness for claim C9 at concrete docstrings: a `'''` literal that does
not close fails, and a closed `'''` literal with surrounding whitespace
yields its stripped contents. -/
theorem strip_docstring_malformed_guard_witness :
    strip_docstring (pys "'''abc") = none ∧
    strip_docstring ((pys " ") ++ (q3s ++ ((pys " ab c ") ++ (q3s ++ (pys "  "))))) =
      some (strip (pys " ab c ")) :=
  ⟨strip_docstring_malformed_guard.1 (pys "'''abc") (by decide) (by decide),
   strip_docstring_malformed_guard.2 (pys " ") (pys " ab c ") (pys "  ")
     (by decide) (by decide)⟩

/-- Claim C5: on stripped contents, the splitter first tries the blank-line
rule (at least two lines, blank second line: first line is the summary and
the lines from the third onward joined by newlines are the description);
otherwise, when the contents contain a period followed by whitespace it
splits there, trimming the text before the period of trailing whitespace
and re-appending the period, with the stripped remainder as description;
otherwise the whole contents are the summary and the description is
empty. -/
theorem split_summary_and_description_cases (contents : PyStr)
    (h : strip contents = contents) :
    (∀ l0 l1 rest, splitlines contents = l0 :: l1 :: rest → strip l1 = [] →
      split_summary_and_description contents =
        (l0, List.intercalate (pys "\n") rest)) ∧
    ((∀ l0 l1 rest, splitlines contents = l0 :: l1 :: rest → strip l1 ≠ []) →
      (containsPeriodSpace contents = true →
        ∃ a b, splitPeriodSpace contents = some (a, b) ∧
          split_summary_and_description contents =
            (rstrip a ++ ['.'], strip b)) ∧
      (containsPeriodSpace contents = false →
        split_summary_and_description contents = (contents, []))) := by
  constructor
  · intro l0 l1 rest hsl hb
    unfold split_summary_and_description
    rw [hsl]
    simp [hb]
  · intro hnb
    have hper : split_summary_and_description contents = periodBranch contents := by
      unfold split_summary_and_description
      rcases hsl : splitlines contents with _ | ⟨l0, t⟩
      · rfl
      · cases t with
        | nil => rfl
        | cons l1 rest =>
          show (if strip l1 = [] then _ else periodBranch contents) = periodBranch contents
          rw [if_neg (hnb l0 l1 rest hsl)]
    constructor
    · intro hcps
      rcases hab : splitPeriodSpace contents with _ | ⟨a, b⟩
      · exfalso
        have hiseq := splitPeriodSpace_isSome_eq contents
        rw [hab, hcps] at hiseq
        simp at hiseq
      · refine ⟨a, b, rfl, ?_⟩
        obtain ⟨c, _, hdec⟩ := splitPeriodSpace_decomp contents a b hab
        have hsa : strip a = rstrip a :=
          strip_of_strip_eq a contents h ⟨'.' :: c :: b, hdec⟩
        rw [hper]
        unfold periodBranch
        rw [hab]
        show (strip a ++ ['.'], strip b) = (rstrip a ++ ['.'], strip b)
        rw [hsa]
    · intro hcps
      have hnone : splitPeriodSpace contents = none := by
        rcases hsp : splitPeriodSpace contents with _ | p
        · rfl
        · exfalso
          have hiseq := splitPeriodSpace_isSome_eq contents
          rw [hsp, hcps] at hiseq
          simp at hiseq
      rw [hper]
      unfold periodBranch
      rw [hnone]
      show (strip contents, ([] : PyStr)) = (contents, [])
      rw [h]

/-- Witness for claim C5 at concrete contents whose second line is not
blank, exercising the period-split rule. -/
theorem split_summary_and_description_cases_witness :
    ∃ a b, splitPeriodSpace (pys "A. B\nC") = some (a, b) ∧
      split_summary_and_description (pys "A. B\nC") =
        (rstrip a ++ ['.'], strip b) :=
  ((split_summary_and_description_cases (pys "A. B\nC") (by decide)).2
    (fun l0 l1 rest hsl => by
      have e : splitlines (pys "A. B\nC") = [pys "A. B", pys "C"] := by decide
      rw [e] at hsl
      injection hsl with h1 h2
      injection h2 with h3 h4
      rw [← h3]
      decide)).1 (by decide)

/-- Claim C4: `format_code` routes a token through `format_docstring`
exactly when it is a `STRING` token whose stripped text starts with a
triple quote and the immediately preceding token was an `INDENT` token;
any other token — including a triple-quoted string not preceded by
`INDENT` — is emitted verbatim. -/
theorem format_code_docstring_dispatch (w : Nat) (st : FCState) (t : Token) :
    (isDocTrigger st.prevTokenType t = true ↔
      (t.kind = TokKind.STRING ∧ starts_with_triple t.text = true ∧
        st.prevTokenType = some TokKind.INDENT)) ∧
    (isDocTrigger st.prevTokenType t = true →
      fcStep w st t =
        (format_docstring st.prevTokenString t.text w).map (fcNext st t)) ∧
    (isDocTrigger st.prevTokenType t = false →
      fcStep w st t = some (fcNext st t t.text)) := by
  refine ⟨?_, ?_, ?_⟩
  · simp [isDocTrigger, and_assoc]
  · intro hcond
    unfold fcStep
    rw [if_pos hcond]
  · intro hcond
    unfold fcStep
    rw [if_neg (by simp [hcond])]

/-- Witness for claim C4: a triple-quoted string token at the very start of
the stream (previous token kind `none`, not `INDENT`) is emitted
verbatim. -/
theorem format_code_docstring_dispatch_witness :
    fcStep 0 initState
        ⟨TokKind.STRING, pys "'''ab'''", 1, 0, 1, 8, pys "'''ab'''\n"⟩ =
      some (fcNext initState
        ⟨TokKind.STRING, pys "'''ab'''", 1, 0, 1, 8, pys "'''ab'''\n"⟩
        (pys "'''ab'''")) :=
  (format_code_docstring_dispatch 0 initState
    ⟨TokKind.STRING, pys "'''ab'''", 1, 0, 1, 8, pys "'''ab'''\n"⟩).2.2 (by decide)

/-- Claim C6: when a token starts on a row after the previously emitted
token's end row and the previous physical line ends in a backslash
continuation, `format_code` first appends that line's trailing
whitespace-and-backslash tail verbatim; the tail is exactly the trailing
segment the line's rstrip removed. -/
theorem format_code_line_continuation (w : Nat) (st : FCState) (t : Token)
    (h1 : st.lastRow < t.startRow)
    (h2 : endsWithContinuation st.previousLine = true)
    (h3 : isDocTrigger st.prevTokenType t = false) :
    fcStep w st t = some (fcNext st t t.text) ∧
    (fcNext st t t.text).formatted =
      st.formatted ++ contTail st.previousLine ++
        List.replicate t.startCol ' ' ++ t.text ∧
    rstripSet contChars st.previousLine ++ contTail st.previousLine =
      st.previousLine := by
  refine ⟨?_, ?_, ?_⟩
  · unfold fcStep
    rw [if_neg (by simp [h3])]
  · have hp1 : fcPre1 st t = contTail st.previousLine := by
      unfold fcPre1
      rw [if_pos (by simp [h1, h2])]
    have hp2 : fcPre2 st t = List.replicate t.startCol ' ' := by
      unfold fcPre2 fcLastCol
      rw [if_pos h1]
      rcases Nat.eq_zero_or_pos t.startCol with h0 | hpos
      · rw [h0]
        rw [if_neg (by simp)]
        rfl
      · rw [if_pos (by exact_mod_cast hpos)]
        congr 1
    show st.formatted ++ fcPre1 st t ++ fcPre2 st t ++ t.text =
      st.formatted ++ contTail st.previousLine ++
        List.replicate t.startCol ' ' ++ t.text
    rw [hp1, hp2]
  · unfold contTail
    exact rstripSet_append_drop contChars st.previousLine

/-- Witness for claim C6 at a concrete state whose previous line ends in a
backslash continuation. -/
theorem format_code_line_continuation_witness :
    fcStep 0
        ⟨pys "x = 1", pys "1", some TokKind.NUMBER, pys "x = 1 \\\n", 1, 7⟩
        ⟨TokKind.OP, pys "+", 2, 4, 2, 5, pys "    + 2\n"⟩ =
      some (fcNext
        ⟨pys "x = 1", pys "1", some TokKind.NUMBER, pys "x = 1 \\\n", 1, 7⟩
        ⟨TokKind.OP, pys "+", 2, 4, 2, 5, pys "    + 2\n"⟩ (pys "+")) :=
  (format_code_line_continuation 0
    ⟨pys "x = 1", pys "1", some TokKind.NUMBER, pys "x = 1 \\\n", 1, 7⟩
    ⟨TokKind.OP, pys "+", 2, 4, 2, 5, pys "    + 2\n"⟩
    (by decide) (by decide) (by decide)).1

/-- The stripped text of a string that begins with a non-whitespace,
non-quote character never starts with a triple quote. -/
theorem starts_with_triple_of_head (c : Char) (r : PyStr)
    (h1 : isPySpace c = false) (h2 : c ≠ '"') (h3 : c ≠ '\'') :
    starts_with_triple (c :: r) = false := by
  unfold starts_with_triple strip
  rw [lstrip_cons_of_not_space c r h1, rstrip_cons_of_not_space c r h1]
  have hd : startsWithS q3d (c :: (r.reverse.dropWhile isPySpace).reverse) = false := by
    unfold startsWithS
    rw [q3d_eq]
    show (('"' == c) && List.isPrefixOf ('"' :: '"' :: [])
      ((r.reverse.dropWhile isPySpace).reverse)) = false
    rw [beq_eq_false_iff_ne.mpr (fun hh => h2 hh.symm), Bool.false_and]
  have hs : startsWithS q3s (c :: (r.reverse.dropWhile isPySpace).reverse) = false := by
    unfold startsWithS
    rw [q3s_eq]
    show (('\'' == c) && List.isPrefixOf ('\'' :: '\'' :: [])
      ((r.reverse.dropWhile isPySpace).reverse)) = false
    rw [beq_eq_false_iff_ne.mpr (fun hh => h3 hh.symm), Bool.false_and]
  rw [hd, hs]
  rfl

/-- Claim C10: a string token whose literal text begins with a string
prefix character (a letter such as `r`, `b`, `u` — any non-whitespace
character other than a quote) never satisfies `starts_with_triple`, so
`format_code` emits it verbatim even after an `INDENT` token. -/
theorem format_code_prefixed_string_verbatim (w : Nat) (st : FCState)
    (t : Token) (c : Char) (r : PyStr) (ht : t.text = c :: r)
    (h1 : isPySpace c = false) (h2 : c ≠ '"') (h3 : c ≠ '\'') :
    starts_with_triple t.text = false ∧
    fcStep w st t = some (fcNext st t t.text) := by
  have hs : starts_with_triple t.text = false := by
    rw [ht]
    exact starts_with_triple_of_head c r h1 h2 h3
  refine ⟨hs, ?_⟩
  have htr : isDocTrigger st.prevTokenType t = false := by
    unfold isDocTrigger
    rw [hs]
    simp
  unfold fcStep
  rw [if_neg (by simp [htr])]

/-- Witness for claim C10: an `r`-prefixed triple-quoted string token
immediately after an `INDENT` token is emitted verbatim. -/
theorem format_code_prefixed_string_verbatim_witness :
    starts_with_triple (pys "r'''x'''") = false ∧
    fcStep 0
        ⟨pys "def f():\n    ", pys "    ", some TokKind.INDENT,
          pys "    r'''x'''\n", 2, 4⟩
        ⟨TokKind.STRING, pys "r'''x'''", 2, 4, 2, 12, pys "    r'''x'''\n"⟩ =
      some (fcNext
        ⟨pys "def f():\n    ", pys "    ", some TokKind.INDENT,
          pys "    r'''x'''\n", 2, 4⟩
        ⟨TokKind.STRING, pys "r'''x'''", 2, 4, 2, 12, pys "    r'''x'''\n"⟩
        (pys "r'''x'''")) :=
  format_code_prefixed_string_verbatim 0
    ⟨pys "def f():\n    ", pys "    ", some TokKind.INDENT,
      pys "    r'''x'''\n", 2, 4⟩
    ⟨TokKind.STRING, pys "r'''x'''", 2, 4, 2, 12, pys "    r'''x'''\n"⟩
    'r' (pys "'''x'''") (by decide) (by decide) (by decide) (by decide)

/-- Claim C7 counterexample: on the scenario source the docstring is not
replaced by a capitalized summary — the output differs from the claimed
text with `"""Return x."""`. -/
theorem format_code_scenario_counterexample :
    format_code scenarioToks 0 ≠
      some (pys "def f():\n    \"\"\"Return x.\"\"\"\n    pass") := by decide

/-- Claim C7 (amended): on the scenario source, the docstring
`'''return x'''` is replaced by `"""return x."""` — quote style
canonicalized to double, a period appended, and the first letter's case
unaltered (no capitalization). -/
theorem format_code_scenario_output :
    format_code scenarioToks 0 =
      some (pys "def f():\n    \"\"\"return x.\"\"\"\n    pass") := by decide

/-- Claim C2 counterexample: the source `"x\t= 1\n"` tokenizes faithfully
into `tabToks`, contains no docstring candidate, yet `format_code` returns
`"x = 1\n"` — the tab in the inter-token gap is replaced by a single
space, so the output is not byte-for-byte the input. -/
theorem format_code_tab_counterexample :
    FaithfulStream tabSrc tabToks = true ∧ noTrig none tabToks = true ∧
    format_code tabToks 0 ≠ some tabSrc :=
  ⟨by decide, by decide, by decide⟩

/-! Helper lemmas for the exact-stream reconstruction theorem. -/

theorem take_append_spaces (s : PyStr) (i g : Nat)
    (hle : i + g ≤ s.length)
    (hsp : (pySlice s i g).all (fun c => c == ' ') = true) :
    s.take (i + g) = s.take i ++ List.replicate g ' ' := by
  unfold pySlice at hsp
  rw [List.take_add]
  congr 1
  apply List.eq_replicate_iff.mpr
  constructor
  · rw [List.length_take, List.length_drop]
    omega
  · intro b hb
    have hmem := List.all_eq_true.mp hsp b hb
    simpa using hmem

theorem take_append_text (s : PyStr) (j : Nat) (x : PyStr)
    (hx : pySlice s j x.length = x) :
    s.take (j + x.length) = s.take j ++ x := by
  unfold pySlice at hx
  rw [List.take_add, hx]

theorem fcPre1_no_cont (st : FCState) (t : Token)
    (hc : endsWithContinuation st.previousLine = false) :
    fcPre1 st t = [] := by
  unfold fcPre1
  rw [if_neg (by simp [hc])]

theorem fcPre2_new_row (st : FCState) (t : Token)
    (hrow : st.lastRow < t.startRow) :
    fcPre2 st t = List.replicate t.startCol ' ' := by
  unfold fcPre2 fcLastCol
  rw [if_pos hrow]
  rcases Nat.eq_zero_or_pos t.startCol with h0 | hpos
  · rw [h0, if_neg (by simp)]
    rfl
  · rw [if_pos (by exact_mod_cast hpos)]
    congr 1

theorem fcPre2_same_row (st : FCState) (t : Token)
    (hrow : ¬ st.lastRow < t.startRow)
    (hle : st.lastCol ≤ (t.startCol : Int)) :
    fcPre2 st t = List.replicate ((t.startCol : Int) - st.lastCol).toNat ' ' := by
  unfold fcPre2 fcLastCol
  rw [if_neg hrow]
  rcases lt_or_eq_of_le hle with hlt | heq
  · rw [if_pos hlt]
  · rw [if_neg (by omega), heq]
    simp

theorem fcRun_exact_step (w : Nat) (s : PyStr) (st : FCState) (t : Token)
    (i g : Nat)
    (hf : st.formatted = s.take i)
    (hc : endsWithContinuation st.previousLine = false)
    (hnt : isDocTrigger st.prevTokenType t = false)
    (hp2 : fcPre2 st t = List.replicate g ' ')
    (hg : flat s t.startRow t.startCol = i + g)
    (hsp : (pySlice s i g).all (fun c => c == ' ') = true)
    (hk : flat s t.endRow t.endCol = flat s t.startRow t.startCol + t.text.length)
    (hklen : flat s t.endRow t.endCol ≤ s.length)
    (hslice : pySlice s (flat s t.startRow t.startCol)
      (flat s t.endRow t.endCol - flat s t.startRow t.startCol) = t.text) :
    fcStep w st t = some (fcNext st t t.text) ∧
    (fcNext st t t.text).formatted = s.take (flat s t.endRow t.endCol) := by
  constructor
  · unfold fcStep
    rw [if_neg (by simp [hnt])]
  · show st.formatted ++ fcPre1 st t ++ fcPre2 st t ++ t.text =
      s.take (flat s t.endRow t.endCol)
    rw [fcPre1_no_cont st t hc, hf, hp2, List.append_nil]
    have h1 : s.take (i + g) = s.take i ++ List.replicate g ' ' :=
      take_append_spaces s i g (by omega) hsp
    have hkj : flat s t.endRow t.endCol - flat s t.startRow t.startCol =
        t.text.length := by omega
    rw [hkj] at hslice
    have h2 : s.take (flat s t.startRow t.startCol + t.text.length) =
        s.take (flat s t.startRow t.startCol) ++ t.text :=
      take_append_text s _ t.text hslice
    rw [← h1, ← hg, ← h2, ← hk]

theorem fcRun_exact (w : Nat) (s : PyStr) :
    ∀ (toks : List Token) (st : FCState) (i : Nat),
      st.formatted = s.take i →
      endsWithContinuation st.previousLine = false →
      noTrig st.prevTokenType toks = true →
      exactFrom s st.lastRow st.lastCol i toks = true →
      ∃ st2, fcRun w st toks = some st2 ∧ st2.formatted = s := by
  intro toks
  induction toks with
  | nil =>
    intro st i hf hc hn hx
    refine ⟨st, rfl, ?_⟩
    have hi : i = s.length := by simpa [exactFrom] using hx
    rw [hf, hi, List.take_length]
  | cons t rest ih =>
    intro st i hf hc hn hx
    have hn' : isDocTrigger st.prevTokenType t = false ∧
        noTrig (some t.kind) rest = true := by
      simpa [noTrig, Bool.and_eq_true, Bool.not_eq_true'] using hn
    simp only [exactFrom, Bool.and_eq_true, decide_eq_true_eq,
      Bool.not_eq_true', and_assoc] at hx
    obtain ⟨hif, hk, hklen, hslice, hnc, hxrest⟩ := hx
    by_cases hrow : st.lastRow < t.startRow
    · rw [if_pos hrow] at hif
      simp only [Bool.and_eq_true, decide_eq_true_eq] at hif
      obtain ⟨hg, hsp⟩ := hif
      obtain ⟨hstep, hfmt⟩ := fcRun_exact_step w s st t i t.startCol hf hc hn'.1
        (fcPre2_new_row st t hrow) hg hsp hk hklen hslice
      have htrig : noTrig (fcNext st t t.text).prevTokenType rest = true := hn'.2
      have hcont2 : endsWithContinuation (fcNext st t t.text).previousLine = false := hnc
      have hx2 : exactFrom s (fcNext st t t.text).lastRow (fcNext st t t.text).lastCol
          (flat s t.endRow t.endCol) rest = true := hxrest
      obtain ⟨st2, hrun2, hfmt2⟩ :=
        ih (fcNext st t t.text) (flat s t.endRow t.endCol) hfmt hcont2 htrig hx2
      refine ⟨st2, ?_, hfmt2⟩
      show (fcStep w st t).bind (fun st' => fcRun w st' rest) = some st2
      rw [hstep]
      exact hrun2
    · rw [if_neg hrow] at hif
      simp only [Bool.and_eq_true, decide_eq_true_eq, and_assoc] at hif
      obtain ⟨hre, hle, hg, hsp⟩ := hif
      have hgi : flat s t.startRow t.startCol - i =
          ((t.startCol : Int) - st.lastCol).toNat := by omega
      rw [hgi] at hsp
      obtain ⟨hstep, hfmt⟩ := fcRun_exact_step w s st t i
        (((t.startCol : Int) - st.lastCol).toNat) hf hc hn'.1
        (fcPre2_same_row st t hrow hle) hg hsp hk hklen hslice
      have htrig : noTrig (fcNext st t t.text).prevTokenType rest = true := hn'.2
      have hcont2 : endsWithContinuation (fcNext st t t.text).previousLine = false := hnc
      have hx2 : exactFrom s (fcNext st t t.text).lastRow (fcNext st t t.text).lastCol
          (flat s t.endRow t.endCol) rest = true := hxrest
      obtain ⟨st2, hrun2, hfmt2⟩ :=
        ih (fcNext st t t.text) (flat s t.endRow t.endCol) hfmt hcont2 htrig hx2
      refine ⟨st2, ?_, hfmt2⟩
      show (fcStep w st t).bind (fun st' => fcRun w st' rest) = some st2
      rw [hstep]
      exact hrun2

/-- Claim C2 (amended): `format_code` returns the source byte-for-byte on
any lossless token stream without a docstring candidate — a faithful
stream whose inter-token gaps are space characters matching the recorded
columns and whose lines carry no backslash continuations.  (As stated for
arbitrary faithful streams the claim fails: a tab in an inter-token gap is
re-emitted as a space, see the counterexample.) -/
theorem format_code_exact_stream_id (s : PyStr) (toks : List Token) (w : Nat)
    (h1 : ExactStream s toks = true) (h2 : noTrig none toks = true) :
    format_code toks w = some s := by
  obtain ⟨st2, hrun, hfmt⟩ := fcRun_exact w s toks initState 0
    (by simp [initState])
    (by decide)
    (by simpa [initState] using h2)
    (by simpa [ExactStream, initState] using h1)
  unfold format_code
  rw [hrun, Option.map_some', hfmt]

/-- Witness for claim C2's amended theorem: the stream of `"x = 1\n"` is
lossless, docstring-free, and reconstructed byte-for-byte. -/
theorem format_code_exact_stream_id_witness :
    ExactStream spaceSrc spaceToks = true ∧ noTrig none spaceToks = true ∧
    format_code spaceToks 0 = some spaceSrc :=
  ⟨by decide, by decide,
   format_code_exact_stream_id spaceSrc spaceToks 0 (by decide) (by decide)⟩
